import Mathlib

/-!
Verification of the yt-vl-screener data-plane pipeline.

Shallow embedding of the core of the repository:
  app/screener/producer.py   (trade aggregation into candles, history eviction, shutdown)
  app/screener/consumer.py   (volume-multiplier evaluation, cooldown recording)
  app/models/settings.py     (SettingsDTO.is_ready)
  app/utils/generate_chart.py (price formatting, empty-input guard)
  app/utils/create_text.py   (signal text construction, call arity)

Machine reals (Python float) are modelled as rationals, timestamps as
integers. Python floor division (the double-slash operator) with a positive
divisor coincides with Int division in Lean, and the Python percent operator
with a positive modulus coincides with Int emod; both are used below.

Definitions come first, all lemmas and theorems follow.
-/

/-- Candle record, mirroring KlineDict as used by producer.py:
s = symbol, t = open time in ms, o h l c = prices, v = base volume,
q = quote volume, T = close time in ms (set on rollover), x = closed flag. -/
structure Kline where
  s : String
  t : ℤ
  o : ℚ
  h : ℚ
  l : ℚ
  c : ℚ
  v : ℚ
  q : ℚ
  T : Option ℤ
  x : Bool
deriving DecidableEq, Repr

/-- Aggregated trade record, mirroring TradeDict: s = symbol,
t = trade time in ms, p = price, v = quantity. -/
structure Trade where
  s : String
  t : ℤ
  p : ℚ
  v : ℚ
deriving DecidableEq, Repr

namespace Producer

/-- Producer.TIMEFRAME, producer.py line 38: candle width in seconds. -/
def TIMEFRAME : ℤ := 3

/-- Producer._MAX_HISTORY_LEN, producer.py line 27: history bound in seconds. -/
def MAX_HISTORY_LEN : ℤ := 60 * 15

/-- Candle width in milliseconds, computed as in producer.py line 206. -/
def timeframeMs : ℤ := TIMEFRAME * 1000

/-- Producer._create_new_kline, producer.py lines 235 to 250. -/
def createNewKline (symbol : String) (openTime : ℤ) (price volume : ℚ) : Kline :=
  { s := symbol
    t := openTime
    o := price
    h := price
    l := price
    c := price
    v := volume
    q := volume * price
    T := none
    x := false }

/-- Helper applying a mutation to the last element of a list, modelling the
in-place update of the last buffer entry in producer.py. -/
def updateLast (f : Kline → Kline) : List Kline → List Kline
  | [] => []
  | [k] => [f k]
  | k :: k2 :: rest => k :: updateLast f (k2 :: rest)

/-- Bucket alignment of a trade time, producer.py line 207. -/
def alignTime (tradeTime : ℤ) : ℤ :=
  tradeTime / timeframeMs * timeframeMs

/-- Producer._process_trade, producer.py lines 202 to 233, for one symbol
buffer. On the empty-buffer path the source appends the fresh candle and
returns early, so no eviction runs there; otherwise the buffer is updated,
either finalizing the last candle and appending a fresh one when the trade
time has reached the expected close time, or folding the trade into the last
candle, and the result is filtered by the eviction bound, keeping candles
whose open time is at least the aligned open time minus the history bound. -/
def processTrade (klines : List Kline) (tr : Trade) : List Kline :=
  match klines.getLast? with
  | none => [createNewKline tr.s (alignTime tr.t) tr.p tr.v]
  | some kline =>
    (if kline.t + timeframeMs ≤ tr.t then
        updateLast (fun k => { k with T := some (k.t + timeframeMs), x := true })
            klines ++
          [createNewKline tr.s (alignTime tr.t) tr.p tr.v]
      else
        updateLast
          (fun k =>
            { k with
              h := max k.h tr.p
              l := min k.l tr.p
              c := tr.p
              v := k.v + tr.v
              q := k.q + tr.v * tr.p })
          klines).filter
      (fun k => alignTime tr.t - MAX_HISTORY_LEN * 1000 ≤ k.t)

/-- Ingestion of a trade sequence into one symbol buffer, starting empty. -/
def ingestTrades (trades : List Trade) : List Kline :=
  trades.foldl processTrade []

/-- Price and volume part of the candle invariant of claim C7. -/
def klinePriceOk (k : Kline) : Prop :=
  k.l ≤ k.o ∧ k.o ≤ k.h ∧ k.l ≤ k.c ∧ k.c ≤ k.h ∧ 0 ≤ k.v

/-- Alignment part of the candle invariant of claim C7: the open time sits on
a timeframe boundary. -/
def klineTimeOk (k : Kline) : Prop :=
  k.t % timeframeMs = 0

/-- Time part of the buffer invariant: aligned open times, strictly
increasing along the buffer. This part holds with no volume hypothesis. -/
def bufferTimesInv (l : List Kline) : Prop :=
  (∀ k ∈ l, klineTimeOk k) ∧ l.Pairwise (fun a b => a.t < b.t)

/-- Buffer invariant of claim C7. -/
def bufferInv (l : List Kline) : Prop :=
  bufferTimesInv l ∧ ∀ k ∈ l, klinePriceOk k

end Producer

/-- Settings record, mirroring SettingsDTO in app/models/settings.py. -/
structure SettingsDTO where
  id : ℤ
  interval : ℤ
  min_multiplier : ℚ
  timeout : ℤ
  chat_id : Option ℤ
  bot_token : Option String
deriving DecidableEq, Repr

/-- SettingsDTO.is_ready, settings.py lines 18 to 26: positive interval,
min_multiplier and timeout, and chat_id and bot_token not None. -/
def SettingsDTO.is_ready (s : SettingsDTO) : Bool :=
  decide (0 < s.interval) && decide ((0 : ℚ) < s.min_multiplier) &&
    decide (0 < s.timeout) && s.chat_id.isSome && s.bot_token.isSome

/-- Readiness as claim C5 words it: the four numeric fields interval,
min_multiplier, timeout and chat_id are positive, and the two notification
fields chat_id and bot_token are present. A missing chat_id defaults to 0 in
the positivity reading, so positivity of chat_id means present and positive. -/
def claimIsReady (s : SettingsDTO) : Prop :=
  0 < s.interval ∧ 0 < s.min_multiplier ∧ 0 < s.timeout ∧
    0 < s.chat_id.getD 0 ∧ s.chat_id.isSome ∧ s.bot_token.isSome

namespace Consumer

/-- Consumer._calculate_volume_multiplier, consumer.py lines 188 to 224.
The arguments now (seconds, from time.time) and interval (settings.interval)
are passed explicitly; the function returns the windowed volume and the
multiplier. -/
def calculateVolumeMultiplier (klines : List Kline) (dailyVolume : ℚ)
    (interval : ℤ) (now : ℚ) : ℚ × ℚ :=
  if klines = [] ∨ dailyVolume ≤ 0 then (0, 0)
  else if interval ≤ 0 then (0, 0)
  else
    let threshold := (now - (interval : ℚ)) * 1000
    let acc := klines.foldl
      (fun acc k => if (k.t : ℚ) ≤ threshold then acc else (acc.1 + k.v, true))
      ((0 : ℚ), false)
    if acc.2 = false then (0, 0)
    else (acc.1, acc.1 / (interval : ℚ) / (dailyVolume / 86400))

end Consumer

/-- Multiplier as the specification formula words it: recent candles are those
with open time strictly above the threshold; the multiplier is 0 when recent
is empty or the daily quote volume or the interval is nonpositive, and
otherwise the windowed base volume per second divided by the daily quote
volume per second. -/
def specMultiplier (klines : List Kline) (dailyQuoteVolume : ℚ)
    (intervalSeconds : ℤ) (now : ℚ) : ℚ :=
  let thresholdMs := (now - (intervalSeconds : ℚ)) * 1000
  let recent := klines.filter (fun k => thresholdMs < (k.t : ℚ))
  if recent = [] ∨ dailyQuoteVolume ≤ 0 ∨ intervalSeconds ≤ 0 then 0
  else
    ((recent.map (fun k => k.v)).sum / (intervalSeconds : ℚ)) /
      (dailyQuoteVolume / 86400)

/-- Modelled from the spec: TimeoutTracker.is_blocked from the external
unicex.extra collaborator, specified in the data model as CooldownMap with a
symbol mapped to its earliest allowed time and lazy eviction, so a read past
the expiry treats the entry as absent. The entry for one symbol is an
optional expiry instant. -/
def TimeoutTracker.isBlocked (cooldown : Option ℤ) (now : ℤ) : Bool :=
  match cooldown with
  | some expiry => decide (now < expiry)
  | none => false

/-- Consumer handling of one symbol during one evaluation tick, mirroring
Consumer._process lines 70 to 83 together with Consumer._process_symbol
lines 89 to 133 of consumer.py, restricted to the cooldown bookkeeping: a
blocked symbol is skipped, a symbol without ticker daily data is skipped,
otherwise the multiplier is computed, and when it exceeds min_multiplier a
task is produced only when the notifier send returns a message, modelled by
the sendOk flag; the tracker blocks the symbol only when a task was produced.
Message construction and the chart task are abstracted into sendOk. The
function returns the cooldown entry of the symbol after the tick. -/
def Consumer.processSymbolStep (cooldown : Option ℤ) (now : ℤ) (nowSec : ℚ)
    (hasTickerDaily : Bool) (klines : List Kline) (dailyQuoteVolume : ℚ)
    (settings : SettingsDTO) (sendOk : Bool) : Option ℤ :=
  if TimeoutTracker.isBlocked cooldown now then cooldown
  else if !hasTickerDaily then cooldown
  else
    let multiplier :=
      (Consumer.calculateVolumeMultiplier klines dailyQuoteVolume
        settings.interval nowSec).2
    if settings.min_multiplier < multiplier then
      if sendOk then some (now + settings.timeout) else cooldown
    else cooldown

/-- Example buffer whose multiplier at nowSec = 1 with interval 60 and daily
quote volume 1 evaluates to 144000, far above a min_multiplier of 50. -/
def exampleSurgeKlines : List Kline :=
  [⟨"S1", 0, 1, 1, 1, 1, 100, 100, none, false⟩]

/-- Example settings used by the consumer cooldown theorems. -/
def exampleSettings : SettingsDTO :=
  ⟨1, 60, 50, 60, some 1, some "token"⟩

/-- Chart data extracted from the candles by generate_chart,
generate_chart.py lines 144 to 153: one column per candle field. The
matplotlib rendering of this data into a PNG is an input-output side effect
and is not modelled; the guard and the data extraction are. -/
structure ChartData where
  dates : List ℤ
  opens : List ℚ
  highs : List ℚ
  lows : List ℚ
  closes : List ℚ
  volumes : List ℚ
  symbol : String
deriving DecidableEq, Repr

/-- Control flow of generate_chart, generate_chart.py lines 133 to 194: empty
candles raise ValueError with the message Klines are empty, otherwise the
per-column data is extracted and a chart is produced from it. -/
def generate_chart (klines : List Kline) (symbol : String)
    (startPrice finalPrice priceChangePct : ℚ) : Except String ChartData :=
  if klines = [] then Except.error "Klines are empty"
  else
    Except.ok
      { dates := klines.map (fun k => k.t)
        opens := klines.map (fun k => k.o)
        highs := klines.map (fun k => k.h)
        lows := klines.map (fun k => k.l)
        closes := klines.map (fun k => k.c)
        volumes := klines.map (fun k => k.v)
        symbol := symbol }

/-- Python value passed positionally at a call site. -/
inductive PyValue
  | pyStr (s : String)
  | pyInt (n : ℤ)
  | pyFloat (q : ℚ)
deriving DecidableEq, Repr

/-- Python positional call semantics for a function without defaults or
keyword parameters: the call binds the arguments when their number matches
the parameter count and raises TypeError otherwise, before the body runs. -/
def pythonPositionalCall (paramCount : ℕ) (args : List PyValue) :
    Except String Unit :=
  if args.length = paramCount then Except.ok ()
  else Except.error "TypeError"

/-- Parameter count of create_text, create_text.py lines 8 to 15: symbol,
multiplier, exchange, market_type, daily_price, daily_volume. There is no
signal count parameter. -/
def createTextParamCount : ℕ := 6

/-- Argument list the Consumer passes to create_text, consumer.py lines 102
to 110: symbol, multiplier, exchange, market_type, ticker daily price change,
ticker daily quote volume, and the signal count. -/
def consumerCreateTextArgs (symbol : String) (multiplier : ℚ)
    (exchange marketType : String) (dailyPrice dailyVolume : ℚ)
    (signalCount : ℤ) : List PyValue :=
  [PyValue.pyStr symbol, PyValue.pyFloat multiplier, PyValue.pyStr exchange,
    PyValue.pyStr marketType, PyValue.pyFloat dailyPrice,
    PyValue.pyFloat dailyVolume, PyValue.pyInt signalCount]

/-- State of one websocket shard: whether it is running and the outcome its
stop call would produce. -/
structure WebsocketState where
  running : Bool
  stopResult : Except String Unit
deriving Repr

/-- Task and shard state of the Producer relevant to shutdown: the shards,
whether the tickers monitor task and the ticker daily task exist and have
been cancelled, and the running flag. -/
structure ProducerTasksState where
  websockets : List WebsocketState
  hasTickersMonitorTask : Bool
  tickersMonitorCancelled : Bool
  tickerDailyCancelled : Bool
  isRunning : Bool
deriving Repr

/-- Producer.stop, producer.py lines 89 to 104: stop every websocket with
exceptions gathered rather than raised, log each error, cancel and await the
tickers monitor task when present, and clear the running flag. The ticker
daily task is not touched. Returns the new state and the list of collected
shard stop errors. -/
def Producer.stop (s : ProducerTasksState) : ProducerTasksState × List String :=
  let errors := s.websockets.filterMap
    (fun w =>
      match w.stopResult with
      | Except.error e => some e
      | Except.ok _ => none)
  ({ s with
      websockets := s.websockets.map (fun w => { w with running := false })
      tickersMonitorCancelled :=
        s.tickersMonitorCancelled || s.hasTickersMonitorTask
      isRunning := false },
    errors)

/-- Loop guard of Producer._update_ticker_daily, producer.py line 108: the
ticker daily loop keeps iterating exactly while the running flag holds. -/
def Producer.tickerDailyLoopContinues (isRunning : Bool) : Bool := isRunning

/-- Exact decimal value, sign times mant over 10 to the exp, the shape of a
Python Decimal as produced by _to_decimal in generate_chart.py lines 17 to
27: a float is first rendered with fifteen significant digits, yielding an
exact short decimal, which this structure represents exactly. -/
structure DecValue where
  neg : Bool
  mant : ℕ
  exp : ℕ
deriving DecidableEq, Repr

/-- Digit character of a value below ten. -/
def decDigit (d : ℕ) : Char :=
  match d with
  | 0 => '0'
  | 1 => '1'
  | 2 => '2'
  | 3 => '3'
  | 4 => '4'
  | 5 => '5'
  | 6 => '6'
  | 7 => '7'
  | 8 => '8'
  | 9 => '9'
  | _ => '?'

/-- Fuel-driven construction of the decimal digit characters of a natural
number, most significant first. -/
def natDigitsAux : ℕ → ℕ → List Char
  | 0, _ => []
  | fuel + 1, n =>
    if n < 10 then [decDigit n]
    else natDigitsAux fuel (n / 10) ++ [decDigit (n % 10)]

/-- Decimal digit characters of a natural number, most significant first. -/
def natDigitsList (n : ℕ) : List Char :=
  natDigitsAux (n + 1) n

/-- Zero padding of a digit list on the left to a given width. -/
def padLeftZeros (width : ℕ) (digits : List Char) : List Char :=
  List.replicate (width - digits.length) '0' ++ digits

/-- Fractional digit characters of mant over 10 to the exp in plain format:
exactly exp digits, as the f format specifier prints for a Python Decimal of
exponent minus exp. -/
def fracDigits (mant exp : ℕ) : List Char :=
  if exp = 0 then [] else padLeftZeros exp (natDigitsList (mant % 10 ^ exp))

/-- Integer digit characters of mant over 10 to the exp in plain format. -/
def intDigits (mant exp : ℕ) : List Char :=
  natDigitsList (mant / 10 ^ exp)

/-- Removal of trailing zero characters, as the Python rstrip of zeros. -/
def dropTrailingZeros (l : List Char) : List Char :=
  (l.reverse.dropWhile (fun ch => ch = '0')).reverse

/-- Count of leading zero characters. -/
def countLeadingZeros (l : List Char) : ℕ :=
  (l.takeWhile (fun ch => ch = '0')).length

/-- Decimal.quantize with rounding ROUND_HALF_UP on a nonnegative value: the
mantissa of mant over 10 to the exp rescaled to places decimal digits, ties
rounded up. -/
def quantizeHalfUp (mant exp places : ℕ) : ℕ :=
  if exp ≤ places then mant * 10 ^ (places - exp)
  else
    let d := 10 ^ (exp - places)
    let q := mant / d
    if d ≤ 2 * (mant % d) then q + 1 else q

/-- The _cleanup_decimal_noise helper of generate_chart.py lines 30 to 64 on
the absolute value: a zero value and a stripped fractional part of at most
twenty digits are returned unchanged, otherwise the value is quantized with
ROUND_HALF_UP to first_non_zero + significant_digits + 4 decimals, at least
significant_digits + 4. The sign is split off by the caller and reapplied,
as in the source. -/
def cleanupDecimalNoise (mant exp sig : ℕ) : ℕ × ℕ :=
  if mant = 0 then (mant, exp)
  else
    let frac := dropTrailingZeros (fracDigits mant exp)
    if frac.length ≤ 20 then (mant, exp)
    else
      let firstNonZero := countLeadingZeros frac
      let keep := max (firstNonZero + sig + 4) (sig + 4)
      (quantizeHalfUp mant exp keep, keep)

/-- The _format_price function of generate_chart.py lines 67 to 130 on exact
decimal inputs; the float conversion through the fifteen significant digit
format of _to_decimal is assumed already applied. The source raises when
significant_digits is below one; renders zero as 0; removes decimal noise;
splits off the sign (cleanup never turns a nonzero value into zero nor flips
its sign, so the input sign is used); strips trailing fractional zeros;
prints int.frac plainly when fewer than three zeros lead the fraction;
otherwise rounds half-up to leading_zeros + significant_digits decimals and
prints sign 0.0(N)D with N the recomputed leading zero count minus one and D
the following significant_digits digits, trailing zeros stripped, or the
digit 0 when nothing remains. -/
def formatPrice (v : DecValue) (significantDigits : ℕ) :
    Except String String :=
  if significantDigits < 1 then
    Except.error "significant_digits must be >= 1"
  else if v.mant = 0 then Except.ok "0"
  else
    let cleaned := cleanupDecimalNoise v.mant v.exp significantDigits
    let sign := if v.neg then "-" else ""
    let intPart := String.mk (intDigits cleaned.1 cleaned.2)
    let frac := dropTrailingZeros (fracDigits cleaned.1 cleaned.2)
    if frac = [] then Except.ok (sign ++ intPart)
    else
      let leadingZeros := countLeadingZeros frac
      if leadingZeros < 3 then
        Except.ok (sign ++ intPart ++ "." ++ String.mk frac)
      else
        let places := leadingZeros + significantDigits
        let rm := quantizeHalfUp cleaned.1 cleaned.2 places
        let roundedFrac := dropTrailingZeros (fracDigits rm places)
        let rz := countLeadingZeros roundedFrac
        let visible := rz - 1
        let significant :=
          dropTrailingZeros ((roundedFrac.drop rz).take significantDigits)
        let significant2 := if significant = [] then ['0'] else significant
        Except.ok (sign ++ "0.0(" ++ String.mk (natDigitsList visible) ++
          ")" ++ String.mk significant2)

/-! Lemmas and theorems. -/

lemma foldVol_eq (t : ℚ) :
    ∀ (l : List Kline) (a : ℚ) (b : Bool),
      l.foldl (fun acc k => if (k.t : ℚ) ≤ t then acc else (acc.1 + k.v, true))
          (a, b) =
        (a + ((l.filter (fun k => t < (k.t : ℚ))).map (fun k => k.v)).sum,
          b || !(l.filter (fun k => t < (k.t : ℚ))).isEmpty) := by
  intro l
  induction l with
  | nil => intro a b; simp
  | cons k rest ih =>
    intro a b
    by_cases hk : (k.t : ℚ) ≤ t
    · have hk2 : ¬ t < (k.t : ℚ) := not_lt.mpr hk
      simp [List.filter_cons, hk, hk2, ih]
    · have hk2 : t < (k.t : ℚ) := not_le.mp hk
      simp [List.filter_cons, hk, hk2, ih, add_assoc]

/-- Claim C1: for every candle buffer, daily quote volume, settings interval
and evaluation instant now, the multiplier computed by the Consumer equals
the specification formula: zero when the recent window is empty or the daily
quote volume or the interval is nonpositive, and otherwise the windowed base
volume per second divided by the daily quote volume per second, the numerator
summing base volume of candles strictly newer than the threshold and the
denominator using the 24h quote volume. -/
theorem c1_multiplier_matches_spec (klines : List Kline) (dailyQuoteVolume : ℚ)
    (intervalSeconds : ℤ) (now : ℚ) :
    (Consumer.calculateVolumeMultiplier klines dailyQuoteVolume intervalSeconds
        now).2 =
      specMultiplier klines dailyQuoteVolume intervalSeconds now := by
  unfold Consumer.calculateVolumeMultiplier specMultiplier
  by_cases hdv : dailyQuoteVolume ≤ 0
  · simp [hdv]
  · by_cases hkl : klines = []
    · simp [hkl]
    · simp only [hkl, hdv, or_false, false_or, if_false]
      by_cases hint : intervalSeconds ≤ 0
      · simp [hint]
      · simp only [hint, or_false, if_false, if_neg hint]
        rw [foldVol_eq]
        by_cases hrec :
            klines.filter
                (fun k => (now - (intervalSeconds : ℚ)) * 1000 < (k.t : ℚ)) = []
        · simp [hrec]
        · have hne : (klines.filter
              (fun k => (now - (intervalSeconds : ℚ)) * 1000 < (k.t : ℚ))).isEmpty
                = false := by
            simpa [List.isEmpty_iff] using hrec
          simp [hrec, hne]

/-- Claim C3: with TIMEFRAME_SECONDS = 3, feeding trades to S1 at
t = 1000, 1500, 2999 ms with price and quantity pairs (10, 1), (12, 2), (8, 3)
yields exactly one candle open_time 0, o 10, h 12, l 8, c 8, base volume 6,
quote volume 58, not closed; a further trade at t = 3100 ms with (11, 1)
finalizes that candle with close_time 3000 and closed true and appends a new
candle open_time 3000 with o = h = l = c = 11, base volume 1, quote volume 11. -/
theorem c3_single_bucket_and_rollover :
    Producer.ingestTrades
        [⟨"S1", 1000, 10, 1⟩, ⟨"S1", 1500, 12, 2⟩, ⟨"S1", 2999, 8, 3⟩] =
      [⟨"S1", 0, 10, 12, 8, 8, 6, 58, none, false⟩] ∧
    Producer.ingestTrades
        [⟨"S1", 1000, 10, 1⟩, ⟨"S1", 1500, 12, 2⟩, ⟨"S1", 2999, 8, 3⟩,
          ⟨"S1", 3100, 11, 1⟩] =
      [⟨"S1", 0, 10, 12, 8, 8, 6, 58, some 3000, true⟩,
        ⟨"S1", 3000, 11, 11, 11, 11, 1, 11, none, false⟩] := by
  constructor <;> with_unfolding_all rfl

/-- Claim C5 counterexample: a settings record whose chat_id is present but
negative. The code judges it ready, while the claim demands positivity of
chat_id and therefore judges it not ready. -/
theorem c5_counterexample :
    SettingsDTO.is_ready ⟨1, 60, 50, 60, some (-1), some "token"⟩ = true ∧
      ¬ claimIsReady ⟨1, 60, 50, 60, some (-1), some "token"⟩ := by
  constructor
  · decide
  · intro hcl
    exact absurd hcl.2.2.2.1 (by decide)

/-- Claim C5 as amended: is_ready holds exactly when interval, min_multiplier
and timeout are positive and chat_id and bot_token are present; the sign of
chat_id is not checked, only its presence. -/
theorem c5_amended_is_ready (s : SettingsDTO) :
    s.is_ready = true ↔
      (0 < s.interval ∧ 0 < s.min_multiplier ∧ 0 < s.timeout ∧
        s.chat_id.isSome ∧ s.bot_token.isSome) := by
  simp [SettingsDTO.is_ready, and_assoc]

/-- Claim C2 counterexample: a symbol that is not in cooldown, has ticker
daily data and whose multiplier exceeds min_multiplier, but whose notifier
send fails. The claim asserts the cooldown is recorded regardless of the send
outcome, so it would require the entry now + timeout = 160; the code records
nothing, leaving the entry absent, and records 160 only when the send
succeeds. -/
theorem c2_counterexample :
    Consumer.processSymbolStep none 100 1 true exampleSurgeKlines 1
        exampleSettings false = none ∧
      Consumer.processSymbolStep none 100 1 true exampleSurgeKlines 1
        exampleSettings true = some 160 ∧
      exampleSettings.min_multiplier <
        (Consumer.calculateVolumeMultiplier exampleSurgeKlines 1
          exampleSettings.interval 1).2 := by
  refine ⟨?_, ?_, ?_⟩ <;> with_unfolding_all decide

/-- Claim C2 as amended: for a symbol that is not in cooldown and has ticker
daily data, when the multiplier exceeds min_multiplier the cooldown entry is
set to now + timeout exactly when the notifier send succeeds; when the send
fails the cooldown is left unchanged, so the symbol may fire again on the
next tick while the notifier is down. -/
theorem c2_amended_cooldown (cooldown : Option ℤ) (now : ℤ) (nowSec : ℚ)
    (hasTickerDaily : Bool) (klines : List Kline) (dailyQuoteVolume : ℚ)
    (settings : SettingsDTO) (sendOk : Bool)
    (h1 : TimeoutTracker.isBlocked cooldown now = false)
    (h2 : hasTickerDaily = true)
    (h3 : settings.min_multiplier <
      (Consumer.calculateVolumeMultiplier klines dailyQuoteVolume
        settings.interval nowSec).2) :
    Consumer.processSymbolStep cooldown now nowSec hasTickerDaily klines
        dailyQuoteVolume settings sendOk =
      (if sendOk then some (now + settings.timeout) else cooldown) := by
  unfold Consumer.processSymbolStep
  rw [h1, h2]
  simp [h3]

/-- Witness for the amended claim C2 at a concrete surge input. -/
theorem c2_amended_cooldown_witness :
    Consumer.processSymbolStep none 100 1 true exampleSurgeKlines 1
        exampleSettings true = some 160 :=
  c2_amended_cooldown none 100 1 true exampleSurgeKlines 1 exampleSettings
    true (by decide) rfl (by with_unfolding_all decide)

/-- Claim C10: on an empty candle sequence, generate_chart raises ValueError
with message Klines are empty and never returns a chart, for every choice of
the remaining arguments. -/
theorem c10_empty_klines_error (symbol : String)
    (startPrice finalPrice priceChangePct : ℚ) :
    generate_chart [] symbol startPrice finalPrice priceChangePct =
      Except.error "Klines are empty" := rfl

/-- Claim C6 evaluation: every dispatch builds the create_text call with
seven positional arguments against a six parameter function, so the call
raises TypeError before any text is built; no notification text containing
the signal count is ever produced. -/
theorem c6_create_text_call_type_error (symbol : String) (multiplier : ℚ)
    (exchange marketType : String) (dailyPrice dailyVolume : ℚ)
    (signalCount : ℤ) :
    pythonPositionalCall createTextParamCount
        (consumerCreateTextArgs symbol multiplier exchange marketType
          dailyPrice dailyVolume signalCount) =
      Except.error "TypeError" := rfl

/-- Claim C9 counterexample: a started producer state with both loop tasks
present. After stop returns, the tickers monitor task has been cancelled but
the ticker daily task has not, contradicting the claim that both loops have
been cancelled when stop returns. -/
theorem c9_counterexample :
    (Producer.stop
        ⟨[⟨true, Except.ok ()⟩, ⟨true, Except.error "boom"⟩], true, false,
          false, true⟩).1.tickersMonitorCancelled = true ∧
      (Producer.stop
        ⟨[⟨true, Except.ok ()⟩, ⟨true, Except.error "boom"⟩], true, false,
          false, true⟩).1.tickerDailyCancelled = false := by
  exact ⟨rfl, rfl⟩

/-- Claim C9 as amended: when stop is called on a producer whose monitor task
was launched, every websocket shard is stopped with shard errors collected
rather than aborting the shutdown, the symbol discovery loop is cancelled and
the running flag is cleared; the ticker daily refresh loop is not cancelled,
but its while guard no longer holds after stop, so it terminates at its next
iteration check. -/
theorem c9_amended_stop (s : ProducerTasksState)
    (h : s.hasTickersMonitorTask = true) :
    (∀ w ∈ (Producer.stop s).1.websockets, w.running = false) ∧
      (Producer.stop s).1.tickersMonitorCancelled = true ∧
      (Producer.stop s).1.isRunning = false ∧
      (Producer.stop s).1.tickerDailyCancelled = s.tickerDailyCancelled ∧
      Producer.tickerDailyLoopContinues (Producer.stop s).1.isRunning =
        false := by
  refine ⟨?_, ?_, rfl, rfl, rfl⟩
  · intro w hw
    simp only [Producer.stop, List.mem_map] at hw
    obtain ⟨w0, _, hw0⟩ := hw
    rw [← hw0]
  · simp [Producer.stop, h]

/-- Witness for the amended claim C9 at a concrete producer state. -/
theorem c9_amended_stop_witness :
    (Producer.stop
        ⟨[⟨true, Except.error "boom"⟩], true, false, false,
          true⟩).1.isRunning = false :=
  (c9_amended_stop ⟨[⟨true, Except.error "boom"⟩], true, false, false, true⟩
    rfl).2.2.1

namespace Producer

lemma timeframeMs_pos : (0 : ℤ) < timeframeMs := by decide

lemma timeframeMs_eq : timeframeMs = 3000 := by decide

lemma maxHistoryMs_eq : MAX_HISTORY_LEN * 1000 = 900000 := by decide

lemma getLast?_decomp (l : List Kline) (a : Kline) (h : l.getLast? = some a) :
    ∃ L, l = L ++ [a] := by
  rcases l.eq_nil_or_concat with h1 | ⟨L, b, rfl⟩
  · subst h1; simp at h
  · have hb : b = a := by simpa using h
    exact ⟨L, by rw [hb, List.concat_eq_append]⟩

lemma updateLast_concat (f : Kline → Kline) (L : List Kline) (a : Kline) :
    updateLast f (L ++ [a]) = L ++ [f a] := by
  induction L with
  | nil => rfl
  | cons x xs ih =>
    cases xs with
    | nil => rfl
    | cons y ys =>
      simp only [List.cons_append, List.append_eq, updateLast] at ih ⊢
      rw [ih]

lemma alignTime_dvd (t : ℤ) : timeframeMs ∣ alignTime t :=
  ⟨t / timeframeMs, by unfold alignTime; ring⟩

lemma alignTime_mono {a b : ℤ} (hab : a ≤ b) : alignTime a ≤ alignTime b := by
  unfold alignTime
  exact mul_le_mul_of_nonneg_right (Int.ediv_le_ediv timeframeMs_pos hab)
    (le_of_lt timeframeMs_pos)

lemma alignTime_of_dvd {t : ℤ} (h : timeframeMs ∣ t) : alignTime t = t := by
  unfold alignTime
  exact Int.ediv_mul_cancel h

lemma alignTime_add_history (a : ℤ) :
    alignTime (a + 900000) = alignTime a + 900000 := by
  have h : (900000 : ℤ) = 300 * timeframeMs := by decide
  unfold alignTime
  rw [h, Int.add_mul_ediv_right _ _ (ne_of_gt timeframeMs_pos)]
  ring

lemma alignTime_span {a b : ℤ} (h : b - a ≤ 900000) :
    alignTime b ≤ alignTime a + 900000 := by
  have h1 : alignTime b ≤ alignTime (a + 900000) := alignTime_mono (by omega)
  rw [alignTime_add_history] at h1
  exact h1

lemma bufferTimesInv_filter (l : List Kline) (p : Kline → Bool)
    (h : bufferTimesInv l) : bufferTimesInv (l.filter p) :=
  ⟨fun k hk => h.1 k (List.mem_of_mem_filter hk),
    h.2.sublist (List.filter_sublist l)⟩

lemma priceOk_filter (l : List Kline) (p : Kline → Bool)
    (h : ∀ k ∈ l, klinePriceOk k) : ∀ k ∈ l.filter p, klinePriceOk k :=
  fun k hk => h k (List.mem_of_mem_filter hk)

lemma klinePriceOk_new (symbol : String) (openTime : ℤ) (price : ℚ)
    {volume : ℚ} (hv : 0 ≤ volume) :
    klinePriceOk (createNewKline symbol openTime price volume) :=
  ⟨le_refl _, le_refl _, le_refl _, le_refl _, hv⟩

lemma klineTimeOk_new (symbol : String) (t : ℤ) (price volume : ℚ) :
    klineTimeOk (createNewKline symbol (alignTime t) price volume) :=
  Int.emod_eq_zero_of_dvd (alignTime_dvd t)

lemma klinePriceOk_fold (kline : Kline) (tr : Trade) (hk : klinePriceOk kline)
    (hv : 0 ≤ tr.v) :
    klinePriceOk
      { kline with
        h := max kline.h tr.p
        l := min kline.l tr.p
        c := tr.p
        v := kline.v + tr.v
        q := kline.q + tr.v * tr.p } := by
  obtain ⟨h1, h2, h3, h4, h5⟩ := hk
  exact ⟨(min_le_left _ _).trans h1, h2.trans (le_max_left _ _),
    min_le_right _ _, le_max_right _ _, add_nonneg h5 hv⟩

lemma bufferTimesInv_concat_update (L : List Kline) (kline : Kline)
    (f : Kline → Kline) (hf : (f kline).t = kline.t)
    (h : bufferTimesInv (L ++ [kline])) : bufferTimesInv (L ++ [f kline]) := by
  obtain ⟨ht, hp⟩ := h
  rw [List.pairwise_append] at hp
  constructor
  · intro k hk
    rcases List.mem_append.mp hk with hkL | hkl
    · exact ht k (List.mem_append_left _ hkL)
    · rw [List.mem_singleton] at hkl
      subst hkl
      have hko := ht kline (List.mem_append_right _ (List.mem_singleton.mpr rfl))
      unfold klineTimeOk at hko ⊢
      rw [hf]
      exact hko
  · rw [List.pairwise_append]
    refine ⟨hp.1, by simp, ?_⟩
    intro a ha b hb
    rw [List.mem_singleton] at hb
    subst hb
    rw [hf]
    exact hp.2.2 a ha kline (List.mem_singleton.mpr rfl)

lemma bufferTimesInv_rollover (L : List Kline) (kline newK : Kline)
    (f : Kline → Kline) (hf : (f kline).t = kline.t)
    (hnew : klineTimeOk newK) (hgt : kline.t < newK.t)
    (h : bufferTimesInv (L ++ [kline])) :
    bufferTimesInv ((L ++ [f kline]) ++ [newK]) := by
  obtain ⟨ht1, hp1⟩ := bufferTimesInv_concat_update L kline f hf h
  constructor
  · intro k hk
    rcases List.mem_append.mp hk with hk1 | hk2
    · exact ht1 k hk1
    · rw [List.mem_singleton] at hk2; subst hk2; exact hnew
  · rw [List.pairwise_append]
    refine ⟨hp1, by simp, ?_⟩
    intro a ha b hb
    rw [List.mem_singleton] at hb; subst hb
    rcases List.mem_append.mp ha with haL | hal
    · have hpo := h.2
      rw [List.pairwise_append] at hpo
      exact lt_trans (hpo.2.2 a haL kline (List.mem_singleton.mpr rfl)) hgt
    · rw [List.mem_singleton] at hal; subst hal
      rw [hf]; exact hgt

lemma priceOk_concat_update (L : List Kline) (kline : Kline)
    (f : Kline → Kline) (hfk : klinePriceOk (f kline))
    (h : ∀ k ∈ L ++ [kline], klinePriceOk k) :
    ∀ k ∈ L ++ [f kline], klinePriceOk k := by
  intro k hk
  rcases List.mem_append.mp hk with hkL | hkl
  · exact h k (List.mem_append_left _ hkL)
  · rw [List.mem_singleton] at hkl; subst hkl; exact hfk

lemma rollover_bound (kline : Kline) (tr : Trade)
    (hkt : klineTimeOk kline) (hc : kline.t + timeframeMs ≤ tr.t) :
    kline.t < alignTime tr.t := by
  have hdvd : timeframeMs ∣ kline.t := Int.dvd_of_emod_eq_zero hkt
  have h1 : alignTime (kline.t + timeframeMs) = kline.t + timeframeMs :=
    alignTime_of_dvd (dvd_add hdvd dvd_rfl)
  have h2 := alignTime_mono hc
  rw [h1] at h2
  have h3 := timeframeMs_pos
  omega

lemma processTrade_timesInv (klines : List Kline) (tr : Trade)
    (h : bufferTimesInv klines) : bufferTimesInv (processTrade klines tr) := by
  unfold processTrade
  cases hgl : klines.getLast? with
  | none =>
    refine ⟨?_, by simp⟩
    intro k hk
    rw [List.mem_singleton] at hk
    subst hk
    exact klineTimeOk_new tr.s tr.t tr.p tr.v
  | some kline =>
    obtain ⟨L, rfl⟩ := getLast?_decomp klines kline hgl
    apply bufferTimesInv_filter
    by_cases hc : kline.t + timeframeMs ≤ tr.t
    · rw [if_pos hc, updateLast_concat]
      have hkt : klineTimeOk kline :=
        h.1 kline (List.mem_append_right _ (List.mem_singleton.mpr rfl))
      exact bufferTimesInv_rollover L kline _
        (fun k => { k with T := some (k.t + timeframeMs), x := true }) rfl
        (klineTimeOk_new tr.s tr.t tr.p tr.v) (rollover_bound kline tr hkt hc) h
    · rw [if_neg hc, updateLast_concat]
      exact bufferTimesInv_concat_update L kline
        (fun k =>
          { k with
            h := max k.h tr.p
            l := min k.l tr.p
            c := tr.p
            v := k.v + tr.v
            q := k.q + tr.v * tr.p })
        rfl h

lemma processTrade_priceOk (klines : List Kline) (tr : Trade)
    (h : ∀ k ∈ klines, klinePriceOk k) (hv : 0 ≤ tr.v) :
    ∀ k ∈ processTrade klines tr, klinePriceOk k := by
  unfold processTrade
  cases hgl : klines.getLast? with
  | none =>
    intro k hk
    rw [List.mem_singleton] at hk
    subst hk
    exact klinePriceOk_new tr.s (alignTime tr.t) tr.p hv
  | some kline =>
    obtain ⟨L, rfl⟩ := getLast?_decomp klines kline hgl
    apply priceOk_filter
    have hkl : klinePriceOk kline :=
      h kline (List.mem_append_right _ (List.mem_singleton.mpr rfl))
    by_cases hc : kline.t + timeframeMs ≤ tr.t
    · rw [if_pos hc, updateLast_concat]
      intro k hk
      rcases List.mem_append.mp hk with hk1 | hk2
      · exact priceOk_concat_update L kline
          (fun k => { k with T := some (k.t + timeframeMs), x := true })
          hkl h k hk1
      · rw [List.mem_singleton] at hk2; subst hk2
        exact klinePriceOk_new tr.s (alignTime tr.t) tr.p hv
    · rw [if_neg hc, updateLast_concat]
      exact priceOk_concat_update L kline
        (fun k =>
          { k with
            h := max k.h tr.p
            l := min k.l tr.p
            c := tr.p
            v := k.v + tr.v
            q := k.q + tr.v * tr.p })
        (klinePriceOk_fold kline tr hkl hv) h

lemma bufferInv_processTrade (klines : List Kline) (tr : Trade)
    (h : bufferInv klines) (hv : 0 ≤ tr.v) :
    bufferInv (processTrade klines tr) :=
  ⟨processTrade_timesInv klines tr h.1, processTrade_priceOk klines tr h.2 hv⟩

lemma bufferInv_nil : bufferInv ([] : List Kline) :=
  ⟨⟨by simp, by simp⟩, by simp⟩

lemma bufferInv_foldl (trades : List Trade) :
    ∀ buf, bufferInv buf → (∀ tr ∈ trades, 0 ≤ tr.v) →
      bufferInv (trades.foldl processTrade buf) := by
  induction trades with
  | nil => intro buf hb _; simpa using hb
  | cons tr ts ih =>
    intro buf hb hv
    simp only [List.foldl_cons]
    exact ih (processTrade buf tr)
      (bufferInv_processTrade buf tr hb (hv tr (List.mem_cons_self tr ts)))
      (fun tr2 h2 => hv tr2 (List.mem_cons_of_mem _ h2))

lemma bufferTimesInv_foldl (trades : List Trade) :
    ∀ buf, bufferTimesInv buf →
      bufferTimesInv (trades.foldl processTrade buf) := by
  induction trades with
  | nil => intro buf hb; simpa using hb
  | cons tr ts ih =>
    intro buf hb
    simp only [List.foldl_cons]
    exact ih (processTrade buf tr) (processTrade_timesInv buf tr hb)

end Producer

/-- Claim C7: for every trade sequence with nonnegative quantities, every
candle of the resulting buffer satisfies low at most open at most high, low
at most close at most high, nonnegative base volume and timeframe-aligned
open time, with open times strictly increasing along the buffer; and this
invariant is preserved by every single trade-ingestion step, late trades
included, since a late trade is folded into the current candle. -/
theorem c7_buffer_invariants :
    (∀ trades : List Trade, (∀ tr ∈ trades, 0 ≤ tr.v) →
        Producer.bufferInv (Producer.ingestTrades trades)) ∧
      (∀ (klines : List Kline) (tr : Trade), Producer.bufferInv klines →
        0 ≤ tr.v → Producer.bufferInv (Producer.processTrade klines tr)) := by
  constructor
  · intro trades hv
    exact Producer.bufferInv_foldl trades [] Producer.bufferInv_nil hv
  · intro klines tr h hv
    exact Producer.bufferInv_processTrade klines tr h hv

/-- Witness for claim C7 at the concrete scenario trades. -/
theorem c7_buffer_invariants_witness :
    Producer.bufferInv (Producer.ingestTrades
      [⟨"S1", 1000, 10, 1⟩, ⟨"S1", 1500, 12, 2⟩, ⟨"S1", 2999, 8, 3⟩,
        ⟨"S1", 3100, 11, 1⟩]) :=
  c7_buffer_invariants.1 _ (by with_unfolding_all decide)

namespace Producer

lemma processTrade_provenance (klines : List Kline) (tr : Trade) :
    ∀ k ∈ processTrade klines tr,
      (∃ k0 ∈ klines, k.t = k0.t) ∨ k.t = alignTime tr.t := by
  unfold processTrade
  cases hgl : klines.getLast? with
  | none =>
    intro k hk
    rw [List.mem_singleton] at hk
    subst hk
    exact Or.inr rfl
  | some kline =>
    obtain ⟨L, rfl⟩ := getLast?_decomp klines kline hgl
    intro k hk
    have hk2 := List.mem_of_mem_filter hk
    by_cases hc : kline.t + timeframeMs ≤ tr.t
    · rw [if_pos hc, updateLast_concat] at hk2
      rcases List.mem_append.mp hk2 with hk3 | hk4
      · rcases List.mem_append.mp hk3 with hkL | hkl
        · exact Or.inl ⟨k, List.mem_append_left _ hkL, rfl⟩
        · rw [List.mem_singleton] at hkl; subst hkl
          exact Or.inl ⟨kline, List.mem_append_right _ (by simp), rfl⟩
      · rw [List.mem_singleton] at hk4; subst hk4
        exact Or.inr rfl
    · rw [if_neg hc, updateLast_concat] at hk2
      rcases List.mem_append.mp hk2 with hkL | hkl
      · exact Or.inl ⟨k, List.mem_append_left _ hkL, rfl⟩
      · rw [List.mem_singleton] at hkl; subst hkl
        exact Or.inl ⟨kline, List.mem_append_right _ (by simp), rfl⟩

lemma ingest_provenance (trades : List Trade) :
    ∀ buf k, k ∈ trades.foldl processTrade buf →
      (∃ k0 ∈ buf, k.t = k0.t) ∨ ∃ tr ∈ trades, k.t = alignTime tr.t := by
  induction trades with
  | nil =>
    intro buf k hk
    exact Or.inl ⟨k, by simpa using hk, rfl⟩
  | cons tr ts ih =>
    intro buf k hk
    simp only [List.foldl_cons] at hk
    rcases ih (processTrade buf tr) k hk with ⟨k0, hk0, hteq⟩ | ⟨tr2, htr2, hteq⟩
    · rcases processTrade_provenance buf tr k0 hk0 with ⟨k1, hk1, hteq1⟩ | h1
      · exact Or.inl ⟨k1, hk1, hteq.trans hteq1⟩
      · exact Or.inr ⟨tr, List.mem_cons_self tr ts, hteq.trans h1⟩
    · exact Or.inr ⟨tr2, List.mem_cons_of_mem _ htr2, hteq⟩

lemma sorted_aligned_length_le (ts : List ℤ) :
    ∀ (n : ℕ) (lo : ℤ), ts.Pairwise (fun a b => a < b) → lo % 3000 = 0 →
      (∀ x ∈ ts, lo ≤ x ∧ x ≤ lo + (n : ℤ) * 3000 ∧ x % 3000 = 0) →
      ts.length ≤ n + 1 := by
  induction ts with
  | nil => intro n lo _ _ _; simp
  | cons a rest ih =>
    intro n lo hp hlo hb
    obtain ⟨ha1, ha2, ha3⟩ := hb a (List.mem_cons_self a rest)
    rw [List.pairwise_cons] at hp
    cases rest with
    | nil => simp
    | cons b rest2 =>
      cases n with
      | zero =>
        exfalso
        obtain ⟨hb1, hb2, hb3⟩ :=
          hb b (List.mem_cons_of_mem _ (List.mem_cons_self b rest2))
        have hab := hp.1 b (List.mem_cons_self b rest2)
        push_cast at hb2
        omega
      | succ m =>
        have hlen : (b :: rest2).length ≤ m + 1 := by
          apply ih m (a + 3000) hp.2 (by omega)
          intro x hx
          obtain ⟨h1, h2, h3⟩ := hb x (List.mem_cons_of_mem _ hx)
          have h4 := hp.1 x hx
          push_cast at h2 ⊢
          refine ⟨by omega, by omega, h3⟩
        simp only [List.length_cons] at hlen ⊢
        omega

end Producer

/-- Claim C8: after ingesting any trade sequence whose timestamps pairwise
span at most MAX_HISTORY_MS = 900000 ms, the buffer holds at most 301 candles,
which is the ceiling of MAX_HISTORY_MS over timeframe_ms (300, the division
being exact) plus one; and after every ingestion step on a nonempty buffer,
every surviving candle has open time at least the aligned bucket of the
latest trade minus MAX_HISTORY_MS, the eviction filter having removed every
older candle. -/
theorem c8_history_bound :
    (∀ trades : List Trade,
        (∀ t1 ∈ trades, ∀ t2 ∈ trades,
          t1.t - t2.t ≤ Producer.MAX_HISTORY_LEN * 1000) →
        (Producer.ingestTrades trades).length ≤ 301) ∧
      (∀ (klines : List Kline) (tr : Trade),
        ∀ k ∈ Producer.processTrade klines tr,
          Producer.alignTime tr.t - Producer.MAX_HISTORY_LEN * 1000 ≤ k.t) := by
  constructor
  · intro trades hspan
    have htinv : Producer.bufferTimesInv (Producer.ingestTrades trades) :=
      Producer.bufferTimesInv_foldl trades [] ⟨by simp, by simp⟩
    have hlen :
        (Producer.ingestTrades trades).map (fun k => k.t) =
            ((Producer.ingestTrades trades).map (fun k => k.t)) := rfl
    have hpair :
        ((Producer.ingestTrades trades).map (fun k => k.t)).Pairwise
          (fun a b => a < b) := List.pairwise_map.mpr htinv.2
    have hmod : ∀ x ∈ (Producer.ingestTrades trades).map (fun k => k.t),
        x % 3000 = 0 := by
      intro x hx
      obtain ⟨k, hk, rfl⟩ := List.mem_map.mp hx
      have h1 := htinv.1 k hk
      unfold Producer.klineTimeOk at h1
      rw [Producer.timeframeMs_eq] at h1
      exact h1
    have hprov : ∀ x ∈ (Producer.ingestTrades trades).map (fun k => k.t),
        ∃ tr ∈ trades, x = Producer.alignTime tr.t := by
      intro x hx
      obtain ⟨k, hk, rfl⟩ := List.mem_map.mp hx
      rcases Producer.ingest_provenance trades [] k hk with ⟨k0, hk0, _⟩ | h1
      · simp at hk0
      · exact h1
    have hspan2 : ∀ x ∈ (Producer.ingestTrades trades).map (fun k => k.t),
        ∀ y ∈ (Producer.ingestTrades trades).map (fun k => k.t),
          y ≤ x + 900000 := by
      intro x hx y hy
      obtain ⟨trx, htrx, hxe⟩ := hprov x hx
      obtain ⟨trz, htrz, hye⟩ := hprov y hy
      have hs2 : trz.t - trx.t ≤ 900000 := by
        have h0 := hspan trz htrz trx htrx
        rwa [Producer.maxHistoryMs_eq] at h0
      subst hxe hye
      have h3 := Producer.alignTime_span hs2
      omega
    have hkey : ((Producer.ingestTrades trades).map (fun k => k.t)).length ≤
        301 := by
      cases hts : (Producer.ingestTrades trades).map (fun k => k.t) with
      | nil => simp
      | cons a rest =>
        rw [hts] at hpair hmod hspan2
        have h300 : (a :: rest).length ≤ 300 + 1 := by
          apply Producer.sorted_aligned_length_le (a :: rest) 300 a hpair
          · exact hmod a (List.mem_cons_self a rest)
          · intro x hx
            refine ⟨?_, ?_, hmod x hx⟩
            · rcases List.mem_cons.mp hx with rfl | hxr
              · exact le_refl x
              · exact le_of_lt ((List.pairwise_cons.mp hpair).1 x hxr)
            · have h5 := hspan2 a (List.mem_cons_self a rest) x hx
              push_cast
              omega
        simpa using h300
    rw [List.length_map] at hkey
    exact hkey
  · intro klines tr k hk
    unfold Producer.processTrade at hk
    split at hk
    · rw [List.mem_singleton] at hk
      subst hk
      show Producer.alignTime tr.t - Producer.MAX_HISTORY_LEN * 1000 ≤
        Producer.alignTime tr.t
      rw [Producer.maxHistoryMs_eq]
      omega
    · exact of_decide_eq_true (List.mem_filter.mp hk).2

/-- Witness for claim C8 at concrete inputs. -/
theorem c8_history_bound_witness :
    (Producer.ingestTrades
        [⟨"S1", 1000, 10, 1⟩, ⟨"S1", 3100, 11, 1⟩]).length ≤ 301 ∧
      Producer.alignTime 3100 - Producer.MAX_HISTORY_LEN * 1000 ≤ 0 :=
  ⟨c8_history_bound.1 _ (by decide),
    c8_history_bound.2 [⟨"S1", 0, 10, 10, 10, 10, 1, 10, none, false⟩]
      ⟨"S1", 3100, 11, 1⟩ ⟨"S1", 0, 10, 10, 10, 10, 1, 10, some 3000, true⟩
      (by
        have hpt :
            Producer.processTrade
                [⟨"S1", 0, 10, 10, 10, 10, 1, 10, none, false⟩]
                ⟨"S1", 3100, 11, 1⟩ =
              [⟨"S1", 0, 10, 10, 10, 10, 1, 10, some 3000, true⟩,
                ⟨"S1", 3000, 11, 11, 11, 11, 1, 11, none, false⟩] := by
          with_unfolding_all rfl
        rw [hpt]
        simp)⟩

lemma str_empty_append (s : String) : "" ++ s = s := rfl

/-- Claim C4 counterexample: 0.00000001234 has seven leading fractional
zeros, so the claim together with the spec example demands the output
0.0(7)12; the code subtracts one from the leading zero count because the
literal 0.0 prefix already displays one zero, and prints 0.0(6)12. -/
theorem c4_counterexample :
    formatPrice ⟨false, 1234, 11⟩ 2 = Except.ok "0.0(6)12" ∧
      formatPrice ⟨false, 1234, 11⟩ 2 ≠ Except.ok "0.0(7)12" := by
  constructor
  · with_unfolding_all rfl
  · intro h
    have h2 : ("0.0(6)12" : String) = "0.0(7)12" := by
      have h1 : formatPrice ⟨false, 1234, 11⟩ 2 = Except.ok "0.0(6)12" := by
        with_unfolding_all rfl
      rw [h1] at h
      exact Except.ok.inj h
    simp at h2

lemma decDigit_ne_zero (d : ℕ) (h1 : d ≠ 0) (h2 : d < 10) :
    decDigit d ≠ '0' := by
  interval_cases d
  · exact absurd rfl h1
  all_goals decide

lemma natDigitsAux_congr : ∀ (f1 f2 n : ℕ), n < f1 → n < f2 →
    natDigitsAux f1 n = natDigitsAux f2 n := by
  intro f1
  induction f1 with
  | zero => intro f2 n h1 _; omega
  | succ g ih =>
    intro f2 n h1 h2
    cases f2 with
    | zero => omega
    | succ g2 =>
      simp only [natDigitsAux]
      by_cases hn : n < 10
      · simp [hn]
      · rw [if_neg hn, if_neg hn, ih g2 (n / 10) (by omega) (by omega)]

lemma natDigitsList_two (m : ℕ) (h1 : 10 ≤ m) (h2 : m ≤ 99) :
    natDigitsList m = [decDigit (m / 10), decDigit (m % 10)] := by
  unfold natDigitsList
  simp only [natDigitsAux]
  rw [if_neg (by omega)]
  have hfuel : natDigitsAux m (m / 10) = natDigitsAux (m / 10 + 1) (m / 10) :=
    natDigitsAux_congr m (m / 10 + 1) (m / 10) (by omega) (by omega)
  rw [hfuel]
  simp only [natDigitsAux]
  rw [if_pos (by omega)]
  simp

lemma natDigitsList_mul_ten (n : ℕ) (hn : 0 < n) :
    natDigitsList (n * 10) = natDigitsList n ++ ['0'] := by
  unfold natDigitsList
  conv_lhs => rw [natDigitsAux]
  rw [if_neg (by omega)]
  have hdiv : n * 10 / 10 = n := Nat.mul_div_cancel n (by omega)
  have hmod : n * 10 % 10 = 0 := Nat.mul_mod_left n 10
  rw [hdiv, hmod]
  congr 1
  exact natDigitsAux_congr (n * 10) (n + 1) n (by omega) (by omega)

lemma natDigitsList_mul_pow (m : ℕ) (hm : 0 < m) :
    ∀ p : ℕ, natDigitsList (m * 10 ^ p) =
      natDigitsList m ++ List.replicate p '0' := by
  intro p
  induction p with
  | zero => simp
  | succ q ih =>
    have hstep : m * 10 ^ (q + 1) = (m * 10 ^ q) * 10 := by ring
    rw [hstep, natDigitsList_mul_ten (m * 10 ^ q)
      (Nat.mul_pos hm (Nat.pos_pow_of_pos q (by omega))), ih,
      List.replicate_succ']
    simp [List.append_assoc]

lemma dropTrailingZeros_last_ne (l : List Char) (ch : Char) (h : ch ≠ '0') :
    dropTrailingZeros (l ++ [ch]) = l ++ [ch] := by
  unfold dropTrailingZeros
  rw [List.reverse_append]
  simp [List.dropWhile_cons, h]

lemma dropTrailingZeros_append_replicate (l : List Char) (p : ℕ) :
    dropTrailingZeros (l ++ List.replicate p '0') = dropTrailingZeros l := by
  unfold dropTrailingZeros
  rw [List.reverse_append, List.reverse_replicate]
  congr 1
  induction p with
  | zero => simp
  | succ q ih => simpa [List.replicate_succ, List.dropWhile_cons] using ih

lemma countLeadingZeros_replicate (N : ℕ) (d : Char) (rest : List Char)
    (h : d ≠ '0') :
    countLeadingZeros (List.replicate N '0' ++ d :: rest) = N := by
  unfold countLeadingZeros
  induction N with
  | zero => simp [List.takeWhile_cons, h]
  | succ n ih => simpa [List.replicate_succ, List.takeWhile_cons] using ih

lemma quantizeHalfUp_exact (a p e : ℕ) :
    quantizeHalfUp (a * 10 ^ p) (e + p) e = a := by
  unfold quantizeHalfUp
  rcases Nat.eq_zero_or_pos p with h0 | hp
  · subst h0
    rw [if_pos (by omega)]
    simp
  · rw [if_neg (by omega)]
    have hd : e + p - e = p := by omega
    have hpow : 0 < 10 ^ p := Nat.pos_pow_of_pos p (by omega)
    have hq : a * 10 ^ p / 10 ^ p = a := Nat.mul_div_cancel a hpow
    have hr : a * 10 ^ p % 10 ^ p = 0 := Nat.mul_mod_left a (10 ^ p)
    simp only [hd, hq, hr]
    rw [if_neg (by omega)]

lemma pow_ten_ge (N : ℕ) : (100 : ℕ) ≤ 10 ^ (N + 2) := by
  have h : (100 : ℕ) = 10 ^ 2 := by norm_num
  rw [h]
  exact Nat.pow_le_pow_right (by omega) (by omega)

lemma fracDigits_shift (m N p : ℕ) (h1 : 10 ≤ m) (h2 : m ≤ 99) :
    fracDigits (m * 10 ^ p) (N + 2 + p) =
      List.replicate N '0' ++
        ([decDigit (m / 10), decDigit (m % 10)] ++ List.replicate p '0') := by
  unfold fracDigits
  rw [if_neg (by omega)]
  have hlt : m * 10 ^ p < 10 ^ (N + 2 + p) := by
    have hstep : 10 ^ (N + 2 + p) = 10 ^ (N + 2) * 10 ^ p := by
      rw [← pow_add]
    rw [hstep]
    have h100 := pow_ten_ge N
    have hpow : 0 < 10 ^ p := Nat.pos_pow_of_pos p (by omega)
    calc m * 10 ^ p < 100 * 10 ^ p := by
          exact (Nat.mul_lt_mul_right hpow).mpr (by omega)
    _ ≤ 10 ^ (N + 2) * 10 ^ p := Nat.mul_le_mul_right _ h100
  rw [Nat.mod_eq_of_lt hlt,
    natDigitsList_mul_pow m (by omega) p, natDigitsList_two m h1 h2]
  unfold padLeftZeros
  have hlen : ([decDigit (m / 10), decDigit (m % 10)] ++
      List.replicate p '0').length = 2 + p := by
    simp
    omega
  rw [hlen]
  have hsub : N + 2 + p - (2 + p) = N := by omega
  rw [hsub]

lemma stripped_fracDigits_shift (m N p : ℕ) (h1 : 10 ≤ m) (h2 : m ≤ 99)
    (h3 : ¬ 10 ∣ m) :
    dropTrailingZeros (fracDigits (m * 10 ^ p) (N + 2 + p)) =
      List.replicate N '0' ++ [decDigit (m / 10), decDigit (m % 10)] := by
  rw [fracDigits_shift m N p h1 h2]
  have hmod : m % 10 ≠ 0 := by
    intro h0
    exact h3 (Nat.dvd_of_mod_eq_zero h0)
  have hd2 : decDigit (m % 10) ≠ '0' :=
    decDigit_ne_zero (m % 10) hmod (Nat.mod_lt m (by omega))
  have hassoc : List.replicate N '0' ++
      ([decDigit (m / 10), decDigit (m % 10)] ++ List.replicate p '0') =
      ((List.replicate N '0' ++ [decDigit (m / 10)]) ++
        [decDigit (m % 10)]) ++ List.replicate p '0' := by
    simp [List.append_assoc]
  rw [hassoc, dropTrailingZeros_append_replicate,
    dropTrailingZeros_last_ne _ _ hd2]
  simp [List.append_assoc]

lemma stripped_fracDigits_two (m N : ℕ) (h1 : 10 ≤ m) (h2 : m ≤ 99)
    (h3 : ¬ 10 ∣ m) :
    dropTrailingZeros (fracDigits m (N + 2)) =
      List.replicate N '0' ++ [decDigit (m / 10), decDigit (m % 10)] := by
  have h := stripped_fracDigits_shift m N 0 h1 h2 h3
  simpa using h

lemma cleanup_class (m N : ℕ) (h1 : 10 ≤ m) (h2 : m ≤ 99) (h3 : ¬ 10 ∣ m) :
    ∃ p, cleanupDecimalNoise m (N + 2) 2 = (m * 10 ^ p, N + 2 + p) := by
  unfold cleanupDecimalNoise
  rw [if_neg (by omega)]
  simp only [stripped_fracDigits_two m N h1 h2 h3]
  have hlen : (List.replicate N '0' ++
      [decDigit (m / 10), decDigit (m % 10)]).length = N + 2 := by simp
  rw [hlen]
  by_cases hc : N + 2 ≤ 20
  · refine ⟨0, ?_⟩
    rw [if_pos hc]
    simp
  · refine ⟨4, ?_⟩
    rw [if_neg hc]
    have hd1 : decDigit (m / 10) ≠ '0' :=
      decDigit_ne_zero (m / 10) (by omega) (by omega)
    rw [countLeadingZeros_replicate N _ _ hd1]
    have hmax : max (N + 2 + 4) (2 + 4) = N + 6 := by omega
    have hquant : quantizeHalfUp m (N + 2) (max (N + 2 + 4) (2 + 4)) =
        m * 10 ^ 4 := by
      rw [hmax]
      unfold quantizeHalfUp
      rw [if_pos (by omega)]
      have hsub : N + 6 - (N + 2) = 4 := by omega
      rw [hsub]
    rw [hquant, hmax]

lemma str_concat_lit : ("-" : String) ++ "0.0(" = "-0.0(" := by decide

lemma str_neg_prefix (x : String) : "-" ++ ("0.0(" ++ x) = "-0.0(" ++ x := by
  rw [← String.append_assoc, str_concat_lit]

/-- Claim C4 as amended: format_price renders zero as 0 and preserves the
sign of every nonzero value; and for every value with N at least 3 leading
fractional zeros followed by exactly significant_digits = 2 significant
digits with the last one nonzero, the output is the compressed notation
0.0(N-1)D: the count between parentheses is the leading zero count minus
one, since the literal 0.0 prefix already displays the first zero, and D is
the two significant digits. -/
theorem c4_amended_format_price :
    (∀ (neg : Bool) (e : ℕ), formatPrice ⟨neg, 0, e⟩ 2 = Except.ok "0") ∧
      (∀ (m e sig : ℕ), 1 ≤ sig → m ≠ 0 →
        formatPrice ⟨true, m, e⟩ sig =
          Except.map (fun t => "-" ++ t) (formatPrice ⟨false, m, e⟩ sig)) ∧
      (∀ N m : ℕ, 3 ≤ N → 10 ≤ m → m ≤ 99 → ¬ 10 ∣ m →
        formatPrice ⟨false, m, N + 2⟩ 2 =
          Except.ok ("0.0(" ++ String.mk (natDigitsList (N - 1)) ++ ")" ++
            String.mk [decDigit (m / 10), decDigit (m % 10)])) := by
  refine ⟨?_, ?_, ?_⟩
  · intro neg e
    rfl
  · intro m e sig hsig hm
    have hs : ¬ sig < 1 := by omega
    simp only [formatPrice, if_neg hs, if_neg hm]
    simp only [if_true, if_false]
    split_ifs <;>
      first
        | exact absurd trivial (by assumption)
        | exact (by assumption : False).elim
        | (simp [Except.map, str_empty_append, String.append_assoc]; done)
        | (simp [Except.map, str_empty_append, String.append_assoc,
            str_neg_prefix]; done)
  · intro N m hN h1 h2 h3
    obtain ⟨p, hcleanup⟩ := cleanup_class m N h1 h2 h3
    have hd1 : decDigit (m / 10) ≠ '0' :=
      decDigit_ne_zero (m / 10) (by omega) (by omega)
    have hd2 : decDigit (m % 10) ≠ '0' :=
      decDigit_ne_zero (m % 10)
        (fun h0 => h3 (Nat.dvd_of_mod_eq_zero h0)) (Nat.mod_lt m (by omega))
    simp only [formatPrice]
    rw [if_neg (by omega : ¬ (2 : ℕ) < 1), if_neg (by omega : ¬ m = 0)]
    simp only [hcleanup]
    rw [stripped_fracDigits_shift m N p h1 h2 h3]
    rw [if_neg (by simp : ¬ (List.replicate N '0' ++
      [decDigit (m / 10), decDigit (m % 10)] = []))]
    rw [countLeadingZeros_replicate N _ _ hd1]
    rw [if_neg (by omega : ¬ N < 3)]
    rw [quantizeHalfUp_exact m p (N + 2)]
    rw [stripped_fracDigits_two m N h1 h2 h3]
    rw [countLeadingZeros_replicate N _ _ hd1]
    have hdrop : (List.replicate N '0' ++
        [decDigit (m / 10), decDigit (m % 10)]).drop N =
          [decDigit (m / 10), decDigit (m % 10)] := by
      have h := List.drop_left (List.replicate N '0')
        [decDigit (m / 10), decDigit (m % 10)]
      rwa [List.length_replicate] at h
    rw [hdrop]
    have htake : ([decDigit (m / 10), decDigit (m % 10)]).take 2 =
        [decDigit (m / 10), decDigit (m % 10)] := rfl
    rw [htake]
    have hstrip2 : dropTrailingZeros [decDigit (m / 10), decDigit (m % 10)] =
        [decDigit (m / 10), decDigit (m % 10)] := by
      have h := dropTrailingZeros_last_ne [decDigit (m / 10)]
        (decDigit (m % 10)) hd2
      simpa using h
    rw [hstrip2]
    rw [if_neg (by simp : ¬ ([decDigit (m / 10), decDigit (m % 10)] :
      List Char) = [])]
    simp [str_empty_append]

/-- Witness for the amended claim C4, at a negative input and at 0.000000012
with seven leading fractional zeros, printed as 0.0(6)12. -/
theorem c4_amended_format_price_witness :
    formatPrice ⟨true, 5, 1⟩ 2 =
        Except.map (fun t => "-" ++ t) (formatPrice ⟨false, 5, 1⟩ 2) ∧
      formatPrice ⟨false, 12, 9⟩ 2 =
        Except.ok ("0.0(" ++ String.mk (natDigitsList (7 - 1)) ++ ")" ++
          String.mk [decDigit (12 / 10), decDigit (12 % 10)]) :=
  ⟨c4_amended_format_price.2.1 5 1 2 (by omega) (by omega),
    c4_amended_format_price.2.2 7 12 (by omega) (by omega) (by omega)
      (by decide)⟩
